import Mathlib

/-!
Verification of the chimera_mcp repository against its natural-language
specification.

Each section embeds one part of the Python source as Lean definitions
(shallow embedding: strings are `String`/`List Char`, Python floats are
modelled as rationals where the arithmetic at stake is exact, fallible
code returns `Except`/`Option`, and the effect of the fixed Cypher
queries that the code issues is modelled as explicit state passing over
a graph-state record).  Theorems in the second half of the file settle
the frozen claims.
-/

set_option maxRecDepth 10000

/- ===================================================================
   Section 1: NotionClient._normalize_page_id  (src/core/notion_client.py)
   =================================================================== -/

/-- ASCII hexadecimal digit, as accepted for one digit by Python's
`int(s, 16)` (Python additionally accepts non-ASCII unicode digits;
the ids handled by the repository are ASCII). -/
def isHexDigitChar (c : Char) : Bool :=
  c.isDigit || ('a' ≤ c && c ≤ 'f') || ('A' ≤ c && c ≤ 'F')

/-- Strip whitespace from both ends, as Python's `int` does before
parsing a numeric literal. -/
def pyStripWs (l : List Char) : List Char :=
  ((l.dropWhile Char.isWhitespace).reverse.dropWhile Char.isWhitespace).reverse

/-- Drop one optional leading sign, as Python's `int` does. -/
def dropSign (l : List Char) : List Char :=
  match l with
  | c :: rest => if c = '+' ∨ c = '-' then rest else l
  | [] => l

/-- Continuation of a hexadecimal digit run: digits with single
underscores allowed only between digits (Python numeric-literal rule). -/
def hexTail : List Char → Bool
  | [] => true
  | c :: rest =>
    if c = '_' then
      (match rest with
       | [] => false
       | d :: _ => isHexDigitChar d) && hexTail rest
    else isHexDigitChar c && hexTail rest

/-- Non-empty hexadecimal digit run starting with a digit. -/
def hexCore : List Char → Bool
  | [] => false
  | c :: rest => isHexDigitChar c && hexTail rest

/-- Whether Python's `int(s, 16)` accepts the string: optional
whitespace, one optional sign, an optional `0x`/`0X` marker (possibly
followed by one underscore), then a digit run with underscores only
between digits. -/
def drop0xMarker (l : List Char) : List Char :=
  match l with
  | c0 :: c1 :: rest =>
    if c0 = '0' ∧ (c1 = 'x' ∨ c1 = 'X') then
      match rest with
      | u :: rest2 => if u = '_' then rest2 else rest
      | [] => rest
    else l
  | _ => l

def pyIntBase16Ok (l : List Char) : Bool :=
  hexCore (drop0xMarker (dropSign (pyStripWs l)))

/-- The `8-4-4-4-12` hyphenation `f"{c[:8]}-{c[8:12]}-{c[12:16]}-{c[16:20]}-{c[20:32]}"`. -/
def pyHyphenate (l : List Char) : List Char :=
  l.take 8 ++ '-' :: ((l.drop 8).take 4 ++ '-' :: ((l.drop 12).take 4
    ++ '-' :: ((l.drop 16).take 4 ++ '-' :: (l.drop 20).take 12)))

/-- Core of `NotionClient._normalize_page_id` on the character list of the
input: a 36-character input with exactly four hyphens is returned as is;
otherwise hyphens are removed, and the result is returned hyphenated when
it has 32 characters and `int(clean_id, 16)` succeeds, and the original
input is returned unchanged in every other case. -/
def pNormalizePageId (l : List Char) : List Char :=
  if l.length = 36 ∧ l.count '-' = 4 then l
  else if (l.filter (fun c => c ≠ '-')).length ≠ 32 then l
  else if ¬ pyIntBase16Ok (l.filter (fun c => c ≠ '-')) then l
  else pyHyphenate (l.filter (fun c => c ≠ '-'))

/-- `NotionClient._normalize_page_id`. -/
def normalize_page_id (s : String) : String :=
  ⟨pNormalizePageId s.data⟩

/- ===================================================================
   Section 2: Bearer authentication
   (src/utils/fastmcp_utils.py get_bearer_token,
    src/fastmcp_server.py ChimeraFastMCPServer._validate_auth and the
    auth gate at the top of the intent_search tool)
   =================================================================== -/

/-- Worker for Python's `str.split()` with no argument: split on runs of
whitespace, discarding empty fields.  `acc` holds the characters of the
token currently being read, in reverse. -/
def splitWsGo : List Char → List Char → List (List Char)
  | [], acc => if acc = [] then [] else [acc.reverse]
  | c :: rest, acc =>
    if c.isWhitespace then
      if acc = [] then splitWsGo rest []
      else acc.reverse :: splitWsGo rest []
    else splitWsGo rest (c :: acc)

/-- Python's `str.split()` on whitespace. -/
def pySplitWs (l : List Char) : List (List Char) :=
  splitWsGo l []

/-- `get_bearer_token` of src/utils/fastmcp_utils.py.  The HTTP request
is represented by its optional `Authorization` header; an absent or
empty header value is falsy in Python and raises "missing".  A raised
`ValueError` is an `Except.error`. -/
def get_bearer_token (authorizationHeader : Option String) : Except String String :=
  match authorizationHeader with
  | none => .error "Authorization header missing"
  | some h =>
    if h = "" then .error "Authorization header missing"
    else
      match pySplitWs h.data with
      | [p0, p1] =>
        if p0 = "Bearer".data then .ok ⟨p1⟩
        else .error "Invalid Authorization header format"
      | _ => .error "Invalid Authorization header format"

/-- The settings fields read by `_validate_auth`
(src/config/settings.py: `chimera_api_key: Optional[str] = None`,
`enable_auth: bool = True`). -/
structure AuthSettings where
  enable_auth : Bool
  chimera_api_key : Option String

/-- Python truthiness of `self.settings.chimera_api_key`: `None` and the
empty string are falsy. -/
def keyConfigured (s : AuthSettings) : Bool :=
  match s.chimera_api_key with
  | none => false
  | some k => k ≠ ""

/-- `ChimeraFastMCPServer._validate_auth`: a no-op returning `True` when
auth is disabled or no key is configured; otherwise the bearer token must
equal the configured key, and any raised error yields `False`. -/
def validate_auth (s : AuthSettings) (authorizationHeader : Option String) : Bool :=
  if ¬ (s.enable_auth = true) ∨ ¬ (keyConfigured s = true) then true
  else
    match get_bearer_token authorizationHeader with
    | .ok clientToken => clientToken = s.chimera_api_key.getD ""
    | .error _ => false

/-- The `ChimeraResult` pydantic model, with the `data` dict represented
by its `paths` entry. -/
structure ChimeraResult where
  success : Bool
  paths : List String
  message : String
deriving DecidableEq

/-- Auth gate at the top of the `intent_search` tool
(src/fastmcp_server.py): when `_validate_auth` fails the tool returns
the failure result without invoking the search pipeline, whose outcome
is the `pipeline` argument. -/
def intent_search_tool (s : AuthSettings) (authorizationHeader : Option String)
    (pipeline : ChimeraResult) : ChimeraResult :=
  if validate_auth s authorizationHeader then pipeline
  else { success := false, paths := [], message := "Authentication failed" }

/- ===================================================================
   Section 3: SyncService._should_do_full_sync
   (src/sync_service/sync_service.py)
   =================================================================== -/

/-- Seconds-of-day of an epoch instant expressed in UTC+8
(`now.astimezone(timezone(timedelta(hours=8)))`). -/
def beijingSecondsOfDay (now : Int) : Int :=
  (now + 8 * 3600).emod 86400

/-- Hour in Beijing time of an epoch instant. -/
def beijingHour (now : Int) : Int :=
  beijingSecondsOfDay now / 3600

/-- Minute in Beijing time of an epoch instant. -/
def beijingMinute (now : Int) : Int :=
  (beijingSecondsOfDay now).emod 3600 / 60

/-- `SyncService._should_do_full_sync`.  `pageCount` is the number of
`NotionPage` nodes (`_is_first_run` is `pageCount = 0`),
`lastFullSync` the recorded last-full-sync instant, and `now` the
current instant, both in epoch seconds UTC.  `days_since_last_full >= 3`
and `>= 1` on the elapsed seconds divided by 86400 are rendered exactly
on the seconds. -/
def should_do_full_sync (pageCount : Nat) (lastFullSync : Option Int) (now : Int) : Bool :=
  if pageCount = 0 then true
  else
    match lastFullSync with
    | none => true
    | some t =>
      if 3 * 86400 ≤ now - t then true
      else if 1 * 86400 ≤ now - t ∧ beijingHour now = 4 ∧ beijingMinute now < 30 then true
      else false

/- ===================================================================
   Section 4: IntentSearchEngine  (src/agents/intent_search.py)
   =================================================================== -/

/-- One candidate path dict produced by `_get_complete_paths`. -/
structure CandidatePath where
  path_string : String
  path_titles : List String
  path_ids : List String
  leaf_id : String
  leaf_title : String
  leaf_tags : List String
  leaf_url : String
  path_length : Nat
deriving DecidableEq

/-- The `GeminiAPIResponse` pydantic model, restricted to the fields the
evaluation reads; a `None` content is the empty string (both are falsy
where the code tests `not gemini_response.content`). -/
structure GeminiAPIResponse where
  success : Bool
  content : String
  error : String
deriving DecidableEq

/-- One entry of the `evaluations` list of a parsed Gemini evaluation. -/
structure EvalItem where
  document_index : Nat
  confidence_score : ℚ
  reasoning : String
deriving DecidableEq

/-- The `ConfidenceEvaluationResponse` pydantic model; the `summary`
dict is flattened into its three entries. -/
structure ConfidenceEvaluationResponse where
  evaluations : List EvalItem
  total_candidates : Nat
  high_confidence_count : Nat
  threshold_used : ℚ
deriving DecidableEq

/-- Markdown-fence cleaning applied to the Gemini response content
before `json.loads`. -/
def cleanGeminiContent (c : String) : String :=
  let c1 := c.trim
  let c2 := if c1.startsWith "```json" then c1.drop 7 else c1
  let c3 := if c2.endsWith "```" then c2.dropRight 3 else c2
  c3.trim

/-- The default evaluations built by the `except` branch of
`_evaluate_path_confidence`: one medium-confidence entry per candidate. -/
def defaultEvaluations (n : Nat) : List EvalItem :=
  (List.range n).map (fun i => ⟨i, 1/2, "自动评估失败，使用默认置信度"⟩)

/-- `IntentSearchEngine._evaluate_path_confidence`.  The outcome of
`_call_gemini` is the `geminiCall` argument (`Except.error` for a raised
exception); `parseEval` is `json.loads` followed by pydantic validation,
returning `none` when either rejects the cleaned content.  Any failure
falls back to the default evaluation. -/
def evaluate_path_confidence (candidatePaths : List CandidatePath)
    (geminiCall : Except String GeminiAPIResponse)
    (parseEval : String → Option ConfidenceEvaluationResponse) :
    ConfidenceEvaluationResponse :=
  if candidatePaths.length = 0 then
    { evaluations := [], total_candidates := 0,
      high_confidence_count := 0, threshold_used := 7/10 }
  else
    let attempt : Option ConfidenceEvaluationResponse :=
      match geminiCall with
      | .error _ => none
      | .ok r =>
        if ¬ (r.success = true) ∨ r.content = "" then none
        else parseEval (cleanGeminiContent r.content)
    match attempt with
    | some resp => resp
    | none =>
      { evaluations := defaultEvaluations candidatePaths.length,
        total_candidates := candidatePaths.length,
        high_confidence_count := 0, threshold_used := 7/10 }

/-- The `IntentSearchRequest` pydantic model. -/
structure IntentSearchRequest where
  intent_keywords : List String
  confidence_threshold : ℚ
  max_results : Nat
  expansion_depth : Nat

/-- The keyword arguments read by `search_by_intent` via `kwargs.get`. -/
structure SearchKwargs where
  confidence_threshold : Option ℚ := none
  max_results : Option Nat := none
  search_results : Option Nat := none
  expansion_depth : Option Nat := none

/-- Construction of the `IntentSearchRequest` in step 2 of
`search_by_intent`: `kwargs.get('confidence_threshold', 0.7)`,
`kwargs.get('max_results', 2)`, `kwargs.get('expansion_depth', 2)`.
The `search_results` keyword is never read. -/
def buildSearchRequest (keywords : List String) (kw : SearchKwargs) : IntentSearchRequest :=
  { intent_keywords := keywords,
    confidence_threshold := kw.confidence_threshold.getD (7/10),
    max_results := kw.max_results.getD 2,
    expansion_depth := kw.expansion_depth.getD 2 }

/-- The keyword arguments the `intent_search` tool of
src/fastmcp_server.py passes to `search_user_intent`: it forwards the
caller's value under the name `search_results`, not `max_results`. -/
def serverKwargs (confidence_threshold : ℚ) (search_results : Nat)
    (expansion_depth : Nat) : SearchKwargs :=
  { confidence_threshold := some confidence_threshold,
    search_results := some search_results,
    expansion_depth := some expansion_depth }

/-- The `CorePageResult` pydantic model (content fields only as far as
needed by the counting claims). -/
structure CorePageResult where
  notion_id : String
  title : String
  content : String
  confidence_score : ℚ
  path_string : String

/-- The `RelatedPageResult` pydantic model. -/
structure RelatedPageResult where
  page_id : String
  title : String
  content : String
  depth : Nat

/-- The `ConfidencePath` pydantic model. -/
structure ConfidencePath where
  core_page : CorePageResult
  related_pages : List RelatedPageResult
  expansion_depth : Nat

/-- Stable descending insertion for
`high_confidence_evals.sort(key=confidence, reverse=True)`: a later
element is inserted after every element with a greater-or-equal score. -/
def insertByConfidenceDesc (e : EvalItem) : List EvalItem → List EvalItem
  | [] => [e]
  | x :: xs =>
    if x.confidence_score < e.confidence_score then e :: x :: xs
    else x :: insertByConfidenceDesc e xs

/-- Stable sort by descending confidence score. -/
def sortByConfidenceDesc (l : List EvalItem) : List EvalItem :=
  l.foldl (fun acc e => insertByConfidenceDesc e acc) []

/-- `IntentSearchEngine._build_confidence_paths`.  Building one path for
an evaluation item performs Notion and Neo4j calls inside a
`try`/`except` whose failure is skipped with `continue`; that step is
the `builder` argument, `none` meaning a raised exception. -/
def build_confidence_paths (evaluation : ConfidenceEvaluationResponse)
    (request : IntentSearchRequest)
    (builder : EvalItem → Option ConfidencePath) : List ConfidencePath :=
  let high := evaluation.evaluations.filter
    (fun e => request.confidence_threshold ≤ e.confidence_score)
  let sorted := sortByConfidenceDesc high
  let top := sorted.take request.max_results
  top.filterMap builder

/- ===================================================================
   Section 5: _build_paths  (src/run_chimera.py)
   =================================================================== -/

/-- One value of the `pages_map` dict built by `_build_cache_data`. -/
structure PageInfo where
  title : String
  parent_id : Option String
  children_ids : List String
deriving DecidableEq

/-- `pages_map` as an association list in dict insertion order, with
unique keys (Python dict keys are unique). -/
def PagesMap := List (String × PageInfo)

/-- Dict lookup `pages_map[pid]` / `pid in pages_map`. -/
def lookupPage (m : PagesMap) (pid : String) : Option PageInfo :=
  (List.find? (fun q => q.1 = pid) m).map Prod.snd

/-- The `while current_id and current_id in pages_map` climb of
`_build_paths`, producing `(path_ids, path_titles)` from root to the
start node.  Each iteration prepends the current page and moves to its
parent; a `None` or empty (falsy) or unindexed parent ends the climb.
The Python loop has no bound and diverges on a parent cycle; the
embedding spends one unit of `fuel` per iteration and returns `none`
when the fuel is exhausted, which cannot happen on an acyclic map when
started with more fuel than the map has entries. -/
def climbPath (m : PagesMap) : Nat → Option String → Option (List String × List String)
  | _, none => some ([], [])
  | 0, some cid =>
    if cid = "" then some ([], [])
    else if (lookupPage m cid).isSome then none else some ([], [])
  | fuel + 1, some cid =>
    if cid = "" then some ([], [])
    else
      match lookupPage m cid with
      | none => some ([], [])
      | some pg =>
        match climbPath m fuel pg.parent_id with
        | none => none
        | some (ids, titles) => some (ids ++ [cid], titles ++ [pg.title])

/-- One entry of the `paths` list built by `_build_paths`. -/
structure PathEntry where
  path_string : String
  path_titles : List String
  path_ids : List String
  leaf_id : String
  leaf_title : String
  path_length : Nat
deriving DecidableEq

/-- The leaf nodes of the map, in dict iteration order:
pages with an empty `children_ids` list. -/
def leafNodes (m : PagesMap) : List String :=
  (m.filter (fun q => q.2.children_ids = [])).map Prod.fst

/-- The path entry built for one leaf from the result of its climb. -/
def mkPathEntry (m : PagesMap) (leafId : String) (ids : List String)
    (titles : List String) : PathEntry :=
  { path_string := String.intercalate " -> " titles,
    path_titles := titles,
    path_ids := ids,
    leaf_id := leafId,
    leaf_title := ((lookupPage m leafId).map PageInfo.title).getD "",
    path_length := ids.length - 1 }

/-- The per-leaf loop of `_build_paths`: one climb per leaf node, kept
when the resulting id chain is non-empty. -/
def buildPathsGo (m : PagesMap) : List String → Option (List PathEntry)
  | [] => some []
  | leafId :: rest =>
    match climbPath m (m.length + 1) (some leafId), buildPathsGo m rest with
    | some (ids, titles), some acc =>
      if ids.length > 0 then some (mkPathEntry m leafId ids titles :: acc)
      else some acc
    | _, _ => none

/-- `_build_paths` of src/run_chimera.py.  `none` propagates fuel
exhaustion of some climb (the Python function would not terminate). -/
def build_paths (m : PagesMap) : Option (List PathEntry) :=
  buildPathsGo m (leafNodes m)

/- ===================================================================
   Section 6: graph storage and integrity
   (src/core/graphiti_client.py upsert_page, _create_relationship,
    create_relationships, _create_tag_relationship;
    src/sync_service/graph_updater.py validate_graph_integrity)
   =================================================================== -/

/-- The relationship types of `RelationType` used between pages. -/
inductive PageRelationType where
  | CHILD_OF
  | LINKS_TO
  | RELATED_TO
  | MENTIONS
deriving DecidableEq

/-- A `NotionPage` node.  `upsert_page` sets the camel-case property
`notionId` (with `title` standing for the remaining `SET` properties);
no query of the repository ever sets a snake-case `notion_id` property,
kept here because the integrity validator reads it. -/
structure NotionNode where
  notionId : String
  title : String
  notion_id : Option String
deriving DecidableEq

/-- A relationship between two `NotionPage` nodes, endpoints named by
their unique `notionId`. -/
structure PageRel where
  src : String
  tgt : String
  typ : PageRelationType
deriving DecidableEq

/-- A `HAS_TAG` relationship from a page to a `Tag` node. -/
structure TagRel where
  page : String
  tag : String
deriving DecidableEq

/-- The Neo4j state touched by the embedded queries: `NotionPage`
nodes, page-to-page relationships, `Tag` nodes and `HAS_TAG`
relationships. -/
structure GraphState where
  nodes : List NotionNode
  rels : List PageRel
  tagNodes : List String
  tagRels : List TagRel
deriving DecidableEq

/-- An empty graph. -/
def emptyGraphState : GraphState := ⟨[], [], [], []⟩

/-- Node lookup by the unique `notionId` property. -/
def lookupNode (st : GraphState) (nid : String) : Option NotionNode :=
  st.nodes.find? (fun n => n.notionId = nid)

/-- `GraphitiClient.upsert_page`: `MERGE (p:NotionPage {notionId: $id})`
then `SET` of the metadata properties (the snake-case `notion_id` is
not among them). -/
def upsert_page (st : GraphState) (notionId title : String) : GraphState :=
  if (lookupNode st notionId).isSome then
    { st with nodes := st.nodes.map (fun n =>
        if n.notionId = notionId then { n with title := title } else n) }
  else
    { st with nodes := st.nodes ++ [⟨notionId, title, none⟩] }

/-- `GraphitiClient._create_relationship`: `MATCH` of both endpoint
nodes followed by `MERGE` of the relationship.  When either `MATCH`
finds no node the query matches nothing and the graph is unchanged. -/
def create_relationship (st : GraphState) (srcId tgtId : String)
    (typ : PageRelationType) : GraphState :=
  if (lookupNode st srcId).isSome ∧ (lookupNode st tgtId).isSome then
    if st.rels.contains ⟨srcId, tgtId, typ⟩ then st
    else { st with rels := st.rels ++ [⟨srcId, tgtId, typ⟩] }
  else st

/-- Substring containment, Python's `in` on strings (used by the
`CONTAINS` operator of the title-lookup query and by the relevance
score). -/
def listContainsSub (hay needle : List Char) : Bool :=
  hay.tails.any (fun t => needle.isPrefixOf t)

/-- `GraphitiClient._find_page_by_title`: first page whose title
contains the given string. -/
def find_page_by_title (st : GraphState) (title : String) : Option String :=
  (st.nodes.find? (fun n => listContainsSub n.title.data title.data)).map NotionNode.notionId

/-- `GraphitiClient._create_tag_relationship`: `MATCH` of the page,
`MERGE` of the `Tag` node, `MERGE` of the `HAS_TAG` relationship. -/
def create_tag_relationship (st : GraphState) (pageId tag : String) : GraphState :=
  if (lookupNode st pageId).isSome then
    let st1 := if st.tagNodes.contains tag then st
               else { st with tagNodes := st.tagNodes ++ [tag] }
    if st1.tagRels.contains ⟨pageId, tag⟩ then st1
    else { st1 with tagRels := st1.tagRels ++ [⟨pageId, tag⟩] }
  else st

/-- The relationship metadata of a `NotionPageMetadata` value. -/
structure PageMetadataRels where
  notion_id : String
  title : String
  parent_id : Option String
  internal_links : List String
  mentions : List String
  database_relations : List String
  tags : List String

/-- `GraphitiClient.create_relationships`: `CHILD_OF` to the parent when
present, `LINKS_TO` and `MENTIONS` to pages found by title, `RELATED_TO`
to each structured database relation id with no resolution step, then
`HAS_TAG` per tag. -/
def create_relationships (st : GraphState) (p : PageMetadataRels) : GraphState :=
  let st1 :=
    match p.parent_id with
    | some pid => create_relationship st p.notion_id pid .CHILD_OF
    | none => st
  let st2 := p.internal_links.foldl
    (fun s link =>
      match find_page_by_title s link with
      | some tid => create_relationship s p.notion_id tid .LINKS_TO
      | none => s) st1
  let st3 := p.mentions.foldl
    (fun s mention =>
      match find_page_by_title s mention with
      | some tid => create_relationship s p.notion_id tid .MENTIONS
      | none => s) st2
  let st4 := p.database_relations.foldl
    (fun s rid => create_relationship s p.notion_id rid .RELATED_TO) st3
  p.tags.foldl (fun s tag => create_tag_relationship s p.notion_id tag) st4

/-- The dictionary returned by
`GraphUpdater.validate_graph_integrity`. -/
structure ValidationResults where
  orphaned_pages : Nat
  broken_relationships : Nat
  duplicate_pages : Nat
  is_valid : Bool
deriving DecidableEq

/-- Whether any relationship of any type touches the node
(`(p)-[]-()` in the orphan query, in either direction, including
`HAS_TAG`). -/
def nodeTouched (st : GraphState) (nid : String) : Bool :=
  st.rels.any (fun r => r.src = nid ∨ r.tgt = nid)
    || st.tagRels.any (fun r => r.page = nid)

/-- `GraphUpdater.validate_graph_integrity`: counts pages with no
relationship at all; relationships between two `NotionPage` nodes
either of whose `notion_id` (snake-case) property is null; and
`notionId` values carried by more than one node. -/
def validate_graph_integrity (st : GraphState) : ValidationResults :=
  let orphaned := (st.nodes.filter (fun n => ¬ nodeTouched st n.notionId)).length
  let broken := (st.rels.filter (fun r =>
    ((lookupNode st r.src).bind NotionNode.notion_id) = none ∨
    ((lookupNode st r.tgt).bind NotionNode.notion_id) = none)).length
  let duplicate := (((st.nodes.map NotionNode.notionId).dedup).filter
    (fun nid => 2 ≤ (st.nodes.map NotionNode.notionId).count nid)).length
  { orphaned_pages := orphaned,
    broken_relationships := broken,
    duplicate_pages := duplicate,
    is_valid := orphaned = 0 ∧ broken = 0 ∧ duplicate = 0 }

/- ===================================================================
   Section 7: GraphitiClient._calculate_relevance_score
   (src/core/graphiti_client.py)
   =================================================================== -/

/-- Lower-casing of a Python string (ASCII-faithful). -/
def pyLower (s : String) : List Char :=
  s.data.map Char.toLower

/-- The title component of the relevance score: the three mutually
exclusive cases checked in priority order. -/
def titleMatchScore (queryLower titleLower : List Char) : ℚ :=
  if queryLower = titleLower then 1
  else if listContainsSub titleLower queryLower then 8/10
  else if listContainsSub queryLower titleLower then 6/10
  else 0

/-- The contribution of one tag to the relevance score. -/
def tagMatchScore (queryLower tagLower : List Char) : ℚ :=
  if queryLower = tagLower then 5/10
  else if listContainsSub tagLower queryLower || listContainsSub queryLower tagLower then 3/10
  else 0

/-- `GraphitiClient._calculate_relevance_score`, with the exact real
values of the float constants (every comparison and the clamp the code
performs is exact at these values). -/
def calculate_relevance_score (query title : String) (tags : List String) (level : ℤ) : ℚ :=
  let queryLower := pyLower query
  let titleLower := pyLower title
  let score := titleMatchScore queryLower titleLower
    + (tags.map (fun tag => tagMatchScore queryLower (pyLower tag))).sum
    + min ((level : ℚ) * (1/10)) (3/10)
  min score 1

/- ===================================================================
   Section 8: FileContentExtractor._process_content_length
   (src/core/file_extractor.py, max_content_length = 8000;
    8000 * 0.8 is exactly the float 6400.0)
   =================================================================== -/

/-- Python's `content.split('\n')`. -/
def splitNl : List Char → List (List Char)
  | [] => [[]]
  | c :: rest =>
    if c = '\n' then [] :: splitNl rest
    else
      match splitNl rest with
      | l :: ls => (c :: l) :: ls
      | [] => [[c]]

/-- Python's `'\n'.join(lines)` on character lists. -/
def joinNl : List (List Char) → List Char
  | [] => []
  | [l] => l
  | l :: l2 :: ls => l ++ '\n' :: joinNl (l2 :: ls)

/-- The head-keeping loop of `_process_content_length`: keep lines while
`current_length + len(line) + 1` stays within 6400, and stop at the
first line that would exceed it.  Returns the kept lines and the final
`current_length`. -/
def takeHeadLines : List (List Char) → Nat → List (List Char) × Nat
  | [], cur => ([], cur)
  | l :: rest, cur =>
    if cur + (l.length + 1) > 6400 then ([], cur)
    else
      let (ks, c) := takeHeadLines rest (cur + (l.length + 1))
      (l :: ks, c)

/-- The tail-keeping loop: lines are offered last-to-first and each kept
line is inserted at the front; stop at the first line that would push
`end_length` past the budget. -/
def takeEndLines : List (List Char) → Nat → Nat → List (List Char) × Nat
  | [], endLen, _ => ([], endLen)
  | l :: rest, endLen, budget =>
    if endLen + (l.length + 1) > budget then ([], endLen)
    else
      let (es, e) := takeEndLines rest (endLen + (l.length + 1)) budget
      (es ++ [l], e)

/-- The literal `"\n... [中间内容已省略] ..."` appended before the tail
lines. -/
def omissionLine : List Char := "\n... [中间内容已省略] ...".data

/-- Decimal digits of a natural number, as produced by Python's
f-string formatting of an int. -/
def natDecimal (n : Nat) : List Char :=
  if h : n < 10 then [Char.ofNat (48 + n)]
  else natDecimal (n / 10) ++ [Char.ofNat (48 + n % 10)]
decreasing_by exact Nat.div_lt_self (Nat.lt_of_lt_of_le (by decide) (Nat.le_of_not_lt h)) (by decide)

/-- The truncation note
`f"\n\n[📄 内容已截断: 显示 {len(result)}/{len(content)} 字符，如需完整内容请直接访问文件]"`. -/
def truncNote (shown total : Nat) : List Char :=
  "\n\n[📄 内容已截断: 显示 ".data ++ natDecimal shown
    ++ '/' :: (natDecimal total ++ " 字符，如需完整内容请直接访问文件]".data)

/-- `FileContentExtractor._process_content_length` with the configured
`max_content_length = 8000`.  Content of at most 8000 characters is
returned unchanged.  Otherwise the head of the line list is kept up to
6400 characters; when more than 200 characters of budget remain and at
least 11 lines were dropped, an omission marker and a tail selection
within `remaining_space - 100` are added; a truncation note is appended
whenever the rebuilt text is shorter than the input. -/
def process_content_length (content : List Char) : List Char :=
  if content.length ≤ 8000 then content
  else
    let lines := splitNl content
    let hk := takeHeadLines lines 0
    let keptLines := hk.1
    let currentLength := hk.2
    let remainingSpace := 8000 - currentLength
    let processedLines :=
      if remainingSpace > 200 ∧ lines.length > keptLines.length + 10 then
        let ek := takeEndLines ((lines.drop (keptLines.length + 1)).reverse) 0
          (remainingSpace - 100)
        (keptLines ++ [omissionLine]) ++ ek.1
      else keptLines
    let result := joinNl processedLines
    if result.length < content.length then
      result ++ truncNote result.length content.length
    else result

/-- The parent link relation between two indexed pages: the right page
is indexed and its parent pointer names the left page. -/
def parentLink (m : PagesMap) (a b : String) : Prop :=
  ∃ pg, lookupPage m b = some pg ∧ pg.parent_id = some a

/-- The stop condition of the `while current_id and current_id in
pages_map` climb: a missing, empty (falsy) or unindexed parent. -/
def climbStops (m : PagesMap) : Option String → Prop
  | none => True
  | some q => q = "" ∨ lookupPage m q = none

/-- The first page of a chain is a root: it is indexed and its parent
pointer stops the climb. -/
def headStops (m : PagesMap) (hd : String) : Prop :=
  ∃ pg, lookupPage m hd = some pg ∧ climbStops m pg.parent_id

/-- The per-entry properties every built path satisfies. -/
def pathEntryOk (m : PagesMap) (e : PathEntry) : Prop :=
  e.path_ids ≠ [] ∧
  e.path_ids.getLast? = some e.leaf_id ∧
  e.path_length = e.path_ids.length - 1 ∧
  e.path_titles = e.path_ids.map (fun pid => ((lookupPage m pid).map PageInfo.title).getD "") ∧
  e.path_string = String.intercalate " -> " e.path_titles ∧
  e.leaf_title = ((lookupPage m e.leaf_id).map PageInfo.title).getD "" ∧
  (∀ pid ∈ e.path_ids, pid ≠ "" ∧ (lookupPage m pid).isSome) ∧
  List.Chain' (parentLink m) e.path_ids ∧
  (∀ hd, e.path_ids.head? = some hd → headStops m hd)

/-- Total size of a line list as counted by the truncation loops: each
line costs its length plus one newline. -/
def lineSum (ls : List (List Char)) : Nat :=
  (ls.map (fun l => l.length + 1)).sum

/- ===================================================================
   Theorems
   =================================================================== -/

/-- C1: with authentication enabled and an API key configured, a tool
call validates exactly when its Authorization header splits into
`Bearer` followed by one token equal to the configured key, and a
failed validation returns the `Authentication failed` result without
consulting the search pipeline; with authentication disabled or no key
configured, validation succeeds for every request. -/
theorem auth_gate_correct (s : AuthSettings) (header : Option String)
    (pipeline : ChimeraResult) :
    ((s.enable_auth = false ∨ s.chimera_api_key = none ∨ s.chimera_api_key = some "") →
      validate_auth s header = true) ∧
    (s.enable_auth = true → ∀ k, s.chimera_api_key = some k → k ≠ "" →
      (validate_auth s header = true ↔ get_bearer_token header = Except.ok k)) ∧
    (validate_auth s header = false →
      intent_search_tool s header pipeline
        = { success := false, paths := [], message := "Authentication failed" }) := by
  refine ⟨?_, ?_, ?_⟩
  · intro h
    unfold validate_auth
    rcases h with h | h | h
    · simp [h]
    · simp [keyConfigured, h]
    · simp [keyConfigured, h]
  · intro hen k hk hne
    unfold validate_auth
    have hkc : keyConfigured s = true := by simp [keyConfigured, hk, hne]
    rw [if_neg (by simp [hen, hkc])]
    cases hbt : get_bearer_token header with
    | ok t => simp [hk, Option.getD]
    | error e => simp
  · intro hv
    unfold intent_search_tool
    rw [hv]
    simp

/-- C1 witness: concrete instances of the auth gate. -/
theorem auth_gate_correct_witness :
    validate_auth ⟨true, some "secret"⟩ (some "Bearer secret") = true ∧
    intent_search_tool ⟨true, some "secret"⟩ none ⟨true, ["p"], "ok"⟩
      = { success := false, paths := [], message := "Authentication failed" } ∧
    validate_auth ⟨false, none⟩ (some "anything at all") = true := by
  refine ⟨?_, ?_, ?_⟩
  · exact ((auth_gate_correct ⟨true, some "secret"⟩ (some "Bearer secret")
      ⟨true, ["p"], "ok"⟩).2.1 rfl "secret" rfl (by decide)).mpr rfl
  · exact (auth_gate_correct ⟨true, some "secret"⟩ none ⟨true, ["p"], "ok"⟩).2.2 rfl
  · exact (auth_gate_correct ⟨false, none⟩ (some "anything at all")
      ⟨true, ["p"], "ok"⟩).1 (Or.inl rfl)

/-- C2: for a non-empty candidate list, when the Gemini call raises, or
returns failure or empty content, or its cleaned content does not parse
as a valid evaluation, `_evaluate_path_confidence` returns (rather than
raises) an evaluation with exactly one entry per candidate, the i-th
entry carrying `document_index` i and `confidence_score` 0.5. -/
theorem confidence_fallback (candidatePaths : List CandidatePath)
    (geminiCall : Except String GeminiAPIResponse)
    (parseEval : String → Option ConfidenceEvaluationResponse)
    (hne : candidatePaths ≠ [])
    (hfail : ∀ r, geminiCall = Except.ok r →
      r.success = false ∨ r.content = "" ∨
        parseEval (cleanGeminiContent r.content) = none) :
    (evaluate_path_confidence candidatePaths geminiCall parseEval).evaluations.length
        = candidatePaths.length ∧
    ∀ i, i < candidatePaths.length →
      (evaluate_path_confidence candidatePaths geminiCall parseEval).evaluations[i]?
        = some ⟨i, 1/2, "自动评估失败，使用默认置信度"⟩ := by
  have hlen : ¬ (candidatePaths.length = 0) := by
    simpa [List.length_eq_zero] using hne
  have hres : evaluate_path_confidence candidatePaths geminiCall parseEval
      = { evaluations := defaultEvaluations candidatePaths.length,
          total_candidates := candidatePaths.length,
          high_confidence_count := 0, threshold_used := 7/10 } := by
    unfold evaluate_path_confidence
    rw [if_neg hlen]
    cases geminiCall with
    | error e => rfl
    | ok r =>
      rcases hfail r rfl with h | h | h
      · simp [h]
      · simp [h]
      · by_cases hs : r.success = true
        · by_cases hc : r.content = ""
          · simp [hc]
          · simp [hs, hc, h]
        · simp [hs]
  rw [hres]
  constructor
  · simp [defaultEvaluations]
  · intro i hi
    simp [defaultEvaluations, hi]

/-- C2 witness: the fallback at one concrete candidate and a raising
Gemini call. -/
theorem confidence_fallback_witness :
    (evaluate_path_confidence [⟨"p", ["T"], ["p"], "p", "T", [], "", 0⟩]
        (Except.error "boom") (fun _ => none)).evaluations.length = 1 ∧
    (evaluate_path_confidence [⟨"p", ["T"], ["p"], "p", "T", [], "", 0⟩]
        (Except.error "boom") (fun _ => none)).evaluations[0]?
      = some ⟨0, 1/2, "自动评估失败，使用默认置信度"⟩ := by
  have h := confidence_fallback [⟨"p", ["T"], ["p"], "p", "T", [], "", 0⟩]
    (Except.error "boom") (fun _ => none) (by decide)
    (fun r hr => Except.noConfusion hr)
  exact ⟨h.1, h.2 0 (by decide)⟩

/-- C3: `_should_do_full_sync` is true exactly when the graph has no
indexed page, or no last-full-sync instant is recorded, or at least 3
days have elapsed, or at least 1 day has elapsed and the current time
in UTC+8 is within 04:00-04:29; in particular it is always true on an
empty graph, true for a last full sync exactly 4 days old, and false
for one exactly 12 hours old with the current Beijing time outside the
04:00-04:30 window. -/
theorem full_sync_policy (pageCount : Nat) (lastFullSync : Option Int) (now : Int) :
    (should_do_full_sync pageCount lastFullSync now = true ↔
      (pageCount = 0 ∨ lastFullSync = none ∨
        ∃ t, lastFullSync = some t ∧
          (259200 ≤ now - t ∨
            (86400 ≤ now - t ∧ beijingHour now = 4 ∧ beijingMinute now < 30)))) ∧
    should_do_full_sync 0 lastFullSync now = true ∧
    should_do_full_sync pageCount (some (now - 345600)) now = true ∧
    ((beijingHour now = 4 → 30 ≤ beijingMinute now) → pageCount ≠ 0 →
      should_do_full_sync pageCount (some (now - 43200)) now = false) := by
  refine ⟨?_, ?_, ?_, ?_⟩
  · unfold should_do_full_sync
    by_cases hpc : pageCount = 0
    · simp [hpc]
    · cases lastFullSync with
      | none => simp [hpc]
      | some t =>
        simp only [hpc, if_false]
        by_cases h3 : (259200 : Int) ≤ now - t
        · simp [h3, hpc]
        · by_cases h1 : (86400 : Int) ≤ now - t ∧ beijingHour now = 4 ∧ beijingMinute now < 30
          · simp [h3, h1, hpc]
          · simp [h3, h1, hpc]
  · unfold should_do_full_sync
    simp
  · unfold should_do_full_sync
    by_cases hpc : pageCount = 0
    · simp [hpc]
    · simp [hpc]
  · intro hwin hpc
    unfold should_do_full_sync
    rw [if_neg hpc]
    have h3 : ¬ ((3 : Int) * 86400 ≤ now - (now - 43200)) := by omega
    have h1 : ¬ ((1 : Int) * 86400 ≤ now - (now - 43200) ∧
        beijingHour now = 4 ∧ beijingMinute now < 30) := by
      rintro ⟨ha, _, _⟩
      omega
    simp [h3, h1]

/-- C3 witness: concrete instances of the sync policy (the epoch
instant 1700000000 is 2023-11-15 06:13:20 Beijing time). -/
theorem full_sync_policy_witness :
    should_do_full_sync 0 (some 1700000000) 1700000000 = true ∧
    should_do_full_sync 7 (some (1700000000 - 345600)) 1700000000 = true ∧
    should_do_full_sync 7 (some (1700000000 - 43200)) 1700000000 = false := by
  refine ⟨(full_sync_policy 0 (some 1700000000) 1700000000).2.1,
    (full_sync_policy 7 (some (1700000000 - 345600)) 1700000000).2.2.1,
    (full_sync_policy 7 (some (1700000000 - 43200)) 1700000000).2.2.2 ?_ (by decide)⟩
  intro h
  exact absurd h (by decide)

/-- C9: the `search_results` argument forwarded by the protocol server
is never read by the engine, which takes `max_results` with its default
of 2; hence for every tool invocation the confidence-path list holds at
most 2 paths, whatever `search_results` value the caller supplied. -/
theorem search_results_has_no_effect (keywords : List String)
    (confidence_threshold : ℚ) (search_results expansion_depth : Nat)
    (evaluation : ConfidenceEvaluationResponse)
    (builder : EvalItem → Option ConfidencePath) :
    (buildSearchRequest keywords
        (serverKwargs confidence_threshold search_results expansion_depth)).max_results
      = 2 ∧
    (build_confidence_paths evaluation
        (buildSearchRequest keywords
          (serverKwargs confidence_threshold search_results expansion_depth))
        builder).length ≤ 2 := by
  exact ⟨rfl, le_trans (List.length_filterMap_le _ _) (List.length_take_le _ _)⟩

/-- C7: the relevance score is the clamp to 1 of the title component
(exactly one of 1, 0.8, 0.6 or 0 in priority order), plus 0.5 per
exact and 0.3 per partial tag match, plus the level bonus
`min(level * 0.1, 0.3)`; it never exceeds 1, and an exact title match
already contributes at least 1 before clamping (so the clamped score is
exactly 1). -/
theorem relevance_score_spec (query title : String) (tags : List String) (level : ℤ) :
    calculate_relevance_score query title tags level
      = min (titleMatchScore (pyLower query) (pyLower title)
          + (tags.map (fun tag => tagMatchScore (pyLower query) (pyLower tag))).sum
          + min ((level : ℚ) * (1/10)) (3/10)) 1 ∧
    calculate_relevance_score query title tags level ≤ 1 ∧
    (0 ≤ level → pyLower query = pyLower title →
      1 ≤ titleMatchScore (pyLower query) (pyLower title)
          + (tags.map (fun tag => tagMatchScore (pyLower query) (pyLower tag))).sum
          + min ((level : ℚ) * (1/10)) (3/10) ∧
      calculate_relevance_score query title tags level = 1) := by
  refine ⟨rfl, min_le_right _ _, ?_⟩
  intro hlevel heq
  have htitle : titleMatchScore (pyLower query) (pyLower title) = 1 := by
    unfold titleMatchScore
    rw [if_pos heq]
  have htags : 0 ≤ (tags.map (fun tag => tagMatchScore (pyLower query) (pyLower tag))).sum := by
    apply List.sum_nonneg
    intro x hx
    rcases List.mem_map.mp hx with ⟨tag, _, rfl⟩
    unfold tagMatchScore
    split_ifs <;> norm_num
  have hbonus : 0 ≤ min ((level : ℚ) * (1/10)) (3/10) := by
    apply le_min
    · apply mul_nonneg
      · exact_mod_cast hlevel
      · norm_num
    · norm_num
  have hpre : 1 ≤ titleMatchScore (pyLower query) (pyLower title)
      + (tags.map (fun tag => tagMatchScore (pyLower query) (pyLower tag))).sum
      + min ((level : ℚ) * (1/10)) (3/10) := by
    rw [htitle]
    linarith
  exact ⟨hpre, min_eq_right hpre⟩

/-- C7 witness: an exact (case-insensitive) title match with a tag and
a positive level clamps to exactly 1. -/
theorem relevance_score_spec_witness :
    calculate_relevance_score "ML" "ml" ["machine learning"] 2 = 1 := by
  exact ((relevance_score_spec "ML" "ml" ["machine learning"] 2).2.2
    (by decide) (by decide)).2

/-- A hexadecimal digit is not whitespace. -/
theorem hex_not_ws (c : Char) (h : isHexDigitChar c = true) : c.isWhitespace = false := by
  by_contra hw
  have hw' : c.isWhitespace = true := by
    cases hws : c.isWhitespace
    · exact absurd hws hw
    · rfl
  have hw2 : ((c = ' ' ∨ c = '\t') ∨ c = '\r') ∨ c = '\n' := by
    simpa [Char.isWhitespace, or_assoc] using hw'
  rcases hw2 with ((rfl | rfl) | rfl) | rfl <;> exact absurd h (by decide)

/-- dropWhile is the identity when the predicate fails on every element. -/
theorem dropWhile_eq_self_of_none {α : Type} (p : α → Bool) (l : List α)
    (h : ∀ c ∈ l, p c = false) : l.dropWhile p = l := by
  cases l with
  | nil => rfl
  | cons c rest =>
    rw [List.dropWhile_cons]
    simp [h c (List.mem_cons_self c rest)]

/-- Stripping whitespace is the identity on an all-hex string. -/
theorem pyStripWs_of_hex (l : List Char) (h : ∀ c ∈ l, isHexDigitChar c = true) :
    pyStripWs l = l := by
  unfold pyStripWs
  rw [dropWhile_eq_self_of_none _ l (fun c hc => hex_not_ws c (h c hc)),
    dropWhile_eq_self_of_none _ l.reverse
      (fun c hc => hex_not_ws c (h c (List.mem_reverse.mp hc))),
    List.reverse_reverse]

/-- Sign stripping is the identity on an all-hex string. -/
theorem dropSign_of_hex (l : List Char) (h : ∀ c ∈ l, isHexDigitChar c = true) :
    dropSign l = l := by
  cases l with
  | nil => rfl
  | cons c rest =>
    have hc := h c (List.mem_cons_self c rest)
    have hpm : ¬ (c = '+' ∨ c = '-') := by
      rintro (rfl | rfl) <;> exact absurd hc (by decide)
    simp [dropSign, hpm]

/-- The 0x-marker stripping is the identity on an all-hex string. -/
theorem drop0xMarker_of_hex (l : List Char) (h : ∀ c ∈ l, isHexDigitChar c = true) :
    drop0xMarker l = l := by
  match l with
  | [] => rfl
  | [c] => rfl
  | c0 :: c1 :: rest =>
    have hc1 : isHexDigitChar c1 = true := h c1 (by simp)
    have hx : ¬ (c0 = '0' ∧ (c1 = 'x' ∨ c1 = 'X')) := by
      rintro ⟨_, rfl | rfl⟩ <;> exact absurd hc1 (by decide)
    simp [drop0xMarker, hx]

/-- hexTail accepts every all-hex string. -/
theorem hexTail_of_hex (l : List Char) (h : ∀ c ∈ l, isHexDigitChar c = true) :
    hexTail l = true := by
  induction l with
  | nil => rfl
  | cons c rest ih =>
    have hc := h c (List.mem_cons_self c rest)
    have hu : ¬ (c = '_') := by rintro rfl; exact absurd hc (by decide)
    unfold hexTail
    rw [if_neg hu, hc, ih (fun d hd => h d (List.mem_cons_of_mem c hd))]
    rfl

/-- `int(s, 16)` accepts every non-empty all-hex string. -/
theorem pyIntBase16Ok_of_hex (l : List Char) (hne : l ≠ [])
    (h : ∀ c ∈ l, isHexDigitChar c = true) : pyIntBase16Ok l = true := by
  unfold pyIntBase16Ok
  rw [pyStripWs_of_hex l h, dropSign_of_hex l h, drop0xMarker_of_hex l h]
  cases l with
  | nil => exact absurd rfl hne
  | cons c rest =>
    simp [hexCore, h c (List.mem_cons_self c rest),
      hexTail_of_hex rest (fun d hd => h d (List.mem_cons_of_mem c hd))]

/-- Removing hyphens is the identity on an all-hex string. -/
theorem filter_hyphen_of_hex (l : List Char) (h : ∀ c ∈ l, isHexDigitChar c = true) :
    l.filter (fun c => c ≠ '-') = l := by
  apply List.filter_eq_self.mpr
  intro a ha
  have := h a ha
  simp only [ne_eq, decide_eq_true_eq]
  rintro rfl
  exact absurd this (by decide)

/-- C6 counterexample: the 32-character input
`+0123456789abcdef0123456789abcde` contains the non-hexadecimal
character `+`, yet `_normalize_page_id` hyphenates it instead of
returning it unchanged (Python's `int(s, 16)` accepts a leading
sign). -/
theorem normalize_page_id_counterexample :
    normalize_page_id "+0123456789abcdef0123456789abcde"
      = "+0123456-789a-bcde-f012-3456789abcde" ∧
    ¬ (∀ c ∈ ("+0123456789abcdef0123456789abcde" : String).data,
        isHexDigitChar c = true) ∧
    normalize_page_id "+0123456789abcdef0123456789abcde"
      ≠ "+0123456789abcdef0123456789abcde" := by
  refine ⟨by decide, ?_, by decide⟩
  intro h
  exact absurd (h '+' (by decide)) (by decide)

/-- C6 (amended): a bare 32-hex-character id is hyphenated to the
`8-4-4-4-12` form; a 36-character id with exactly four hyphens is
returned unchanged; an input whose length after hyphen removal is not
32, or that `int(·, 16)` rejects, is returned unchanged; and every
32-characters-after-hyphen-removal input accepted by `int(·, 16)`
(which also admits signs, whitespace, a `0x` marker and underscores
between digits) is hyphenated. -/
theorem normalize_page_id_amended (s : String) :
    (s.length = 36 → s.data.count '-' = 4 → normalize_page_id s = s) ∧
    ((s.data.filter (fun c => c ≠ '-')).length ≠ 32 → normalize_page_id s = s) ∧
    (pyIntBase16Ok (s.data.filter (fun c => c ≠ '-')) = false → normalize_page_id s = s) ∧
    (¬ (s.length = 36 ∧ s.data.count '-' = 4) →
      (s.data.filter (fun c => c ≠ '-')).length = 32 →
      pyIntBase16Ok (s.data.filter (fun c => c ≠ '-')) = true →
      normalize_page_id s = ⟨pyHyphenate (s.data.filter (fun c => c ≠ '-'))⟩) ∧
    (s.length = 32 → (∀ c ∈ s.data, isHexDigitChar c = true) →
      normalize_page_id s = ⟨pyHyphenate s.data⟩) := by
  have hsl : s.length = s.data.length := rfl
  refine ⟨?_, ?_, ?_, ?_, ?_⟩
  · intro h36 h4
    show String.mk (pNormalizePageId s.data) = s
    unfold pNormalizePageId
    rw [if_pos ⟨hsl ▸ h36, h4⟩]
  · intro hlen
    show String.mk (pNormalizePageId s.data) = s
    unfold pNormalizePageId
    by_cases h1 : s.data.length = 36 ∧ s.data.count '-' = 4
    · rw [if_pos h1]
    · rw [if_neg h1, if_pos hlen]
  · intro hhex
    show String.mk (pNormalizePageId s.data) = s
    unfold pNormalizePageId
    by_cases h1 : s.data.length = 36 ∧ s.data.count '-' = 4
    · rw [if_pos h1]
    · rw [if_neg h1]
      by_cases h2 : (s.data.filter (fun c => c ≠ '-')).length ≠ 32
      · rw [if_pos h2]
      · rw [if_neg h2,
          if_pos (fun hc => absurd (hhex.symm.trans hc) (by decide))]
  · intro h1 h2 h3
    have h1' : ¬ (s.data.length = 36 ∧ s.data.count '-' = 4) := h1
    show String.mk (pNormalizePageId s.data) = _
    unfold pNormalizePageId
    rw [if_neg h1', if_neg (not_not_intro h2), if_neg (not_not_intro h3)]
  · intro h32 hhex
    have hfil : s.data.filter (fun c => c ≠ '-') = s.data := filter_hyphen_of_hex s.data hhex
    have hne : s.data ≠ [] := by
      intro hemp
      rw [hsl, hemp] at h32
      exact absurd h32 (by decide)
    show String.mk (pNormalizePageId s.data) = String.mk (pyHyphenate s.data)
    unfold pNormalizePageId
    have h1 : ¬ (s.data.length = 36 ∧ s.data.count '-' = 4) := by
      rintro ⟨hl, _⟩
      rw [hsl] at h32
      omega
    have h2 : (s.data.filter (fun c => c ≠ '-')).length = 32 := by
      rw [hfil, ← hsl]
      exact h32
    have h3 : pyIntBase16Ok (s.data.filter (fun c => c ≠ '-')) = true := by
      rw [hfil]
      exact pyIntBase16Ok_of_hex s.data hne hhex
    rw [if_neg h1, if_neg (not_not_intro h2), if_neg (not_not_intro h3), hfil]

/-- C6 witness: concrete instances of the amended normalization. -/
theorem normalize_page_id_amended_witness :
    normalize_page_id "01234567-89ab-cdef-0123-456789abcdef"
      = "01234567-89ab-cdef-0123-456789abcdef" ∧
    normalize_page_id "zzz" = "zzz" ∧
    normalize_page_id "ghijklmnopqrstuvwxyzghijklmnopqr" = "ghijklmnopqrstuvwxyzghijklmnopqr" ∧
    normalize_page_id "0123456789abcdef0123456789abcdef"
      = "01234567-89ab-cdef-0123-456789abcdef" := by
  refine ⟨?_, ?_, ?_, ?_⟩
  · exact (normalize_page_id_amended "01234567-89ab-cdef-0123-456789abcdef").1
      (by decide) (by decide)
  · exact (normalize_page_id_amended "zzz").2.1 (by decide)
  · exact (normalize_page_id_amended "ghijklmnopqrstuvwxyzghijklmnopqr").2.2.1 (by decide)
  · exact (normalize_page_id_amended "0123456789abcdef0123456789abcdef").2.2.2.2
      (by decide) (by decide)

/-- Hyphenating a 32-character list yields 36 characters. -/
theorem pyHyphenate_length (l : List Char) (h : l.length = 32) :
    (pyHyphenate l).length = 36 := by
  simp [pyHyphenate, h]

/-- Hyphenating a hyphen-free list yields exactly four hyphens. -/
theorem pyHyphenate_count (l : List Char) (h0 : l.count '-' = 0) :
    (pyHyphenate l).count '-' = 4 := by
  have hnot : '-' ∉ l := List.count_eq_zero.mp h0
  have htake : ∀ n : Nat, List.count '-' (l.take n) = 0 :=
    fun n => List.count_eq_zero.mpr (fun hm => hnot (List.mem_of_mem_take hm))
  have hdroptake : ∀ m n : Nat, List.count '-' ((l.drop m).take n) = 0 :=
    fun m n => List.count_eq_zero.mpr
      (fun hm => hnot (List.mem_of_mem_drop (List.mem_of_mem_take hm)))
  simp [pyHyphenate, List.count_append, List.count_cons, htake, hdroptake]

/-- C10: `_normalize_page_id` is idempotent: applying it twice yields
the same result as applying it once, for every input string. -/
theorem normalize_page_id_idempotent (s : String) :
    normalize_page_id (normalize_page_id s) = normalize_page_id s := by
  show String.mk (pNormalizePageId (pNormalizePageId s.data)) = String.mk (pNormalizePageId s.data)
  congr 1
  by_cases h1 : s.data.length = 36 ∧ s.data.count '-' = 4
  · have hid : pNormalizePageId s.data = s.data := by
      unfold pNormalizePageId
      rw [if_pos h1]
    simp only [hid]
  · by_cases h2 : (s.data.filter (fun c => c ≠ '-')).length ≠ 32
    · have hid : pNormalizePageId s.data = s.data := by
        unfold pNormalizePageId
        rw [if_neg h1, if_pos h2]
      simp only [hid]
    · by_cases h3 : pyIntBase16Ok (s.data.filter (fun c => c ≠ '-')) = true
      · have hyph : pNormalizePageId s.data
            = pyHyphenate (s.data.filter (fun c => c ≠ '-')) := by
          unfold pNormalizePageId
          rw [if_neg h1, if_neg h2, if_neg (not_not_intro h3)]
        have hz : (s.data.filter (fun c => c ≠ '-')).count '-' = 0 := by
          apply List.count_eq_zero.mpr
          intro hm
          rcases List.mem_filter.mp hm with ⟨_, hdec⟩
          simp at hdec
        have hc4 : (pyHyphenate (s.data.filter (fun c => c ≠ '-'))).count '-' = 4 :=
          pyHyphenate_count _ hz
        have hl36 : (pyHyphenate (s.data.filter (fun c => c ≠ '-'))).length = 36 :=
          pyHyphenate_length _ (by omega)
        rw [hyph]
        unfold pNormalizePageId
        rw [if_pos ⟨hl36, hc4⟩]
      · have hid : pNormalizePageId s.data = s.data := by
          unfold pNormalizePageId
          rw [if_neg h1, if_neg h2, if_pos (fun hc => h3 hc)]
        simp only [hid]

/-- C5 counterexample: storing one page whose only declared edge is a
`RELATED_TO` relation to the non-existent id `deadbeef` leaves the
broken-relationship count at 0 (not 1): `_create_relationship` MATCHes
the target node before MERGEing the relationship, so no relationship is
created at all. -/
theorem graph_integrity_counterexample :
    (validate_graph_integrity
      (create_relationships (upsert_page emptyGraphState "p1" "T")
        ⟨"p1", "T", none, [], [], ["deadbeef"], []⟩)).broken_relationships = 0 ∧
    ¬ (validate_graph_integrity
      (create_relationships (upsert_page emptyGraphState "p1" "T")
        ⟨"p1", "T", none, [], [], ["deadbeef"], []⟩)).broken_relationships = 1 := by
  refine ⟨by decide, by decide⟩

/-- C5 (amended): on the empty graph `validate_graph_integrity` reports
zero orphaned, broken and duplicate counts with `is_valid` true; after
storing one page whose only declared edge is a structured relation to a
non-existent page id, no relationship is created (the relationship
query MATCHes the missing target and matches nothing), so the
broken-relationship count stays 0 and the page is instead reported as
the one orphaned page, making `is_valid` false. -/
theorem graph_integrity_amended (pid title tgt : String) (hne : tgt ≠ pid) :
    validate_graph_integrity emptyGraphState
      = { orphaned_pages := 0, broken_relationships := 0,
          duplicate_pages := 0, is_valid := true } ∧
    validate_graph_integrity
        (create_relationships (upsert_page emptyGraphState pid title)
          ⟨pid, title, none, [], [], [tgt], []⟩)
      = { orphaned_pages := 1, broken_relationships := 0,
          duplicate_pages := 0, is_valid := false } := by
  constructor
  · decide
  · have hst : create_relationships (upsert_page emptyGraphState pid title)
        ⟨pid, title, none, [], [], [tgt], []⟩
        = { nodes := [⟨pid, title, none⟩], rels := [], tagNodes := [], tagRels := [] } := by
      unfold create_relationships upsert_page emptyGraphState
      simp only [lookupNode, List.find?_nil, Option.isSome_none, Bool.false_eq_true,
        if_false, List.nil_append, List.foldl_cons, List.foldl_nil]
      unfold create_relationship
      have hpt : ¬ (pid = tgt) := fun h => hne h.symm
      simp [lookupNode, List.find?, hpt]
    rw [hst]
    unfold validate_graph_integrity nodeTouched
    simp [lookupNode, List.find?, List.dedup, List.count]

/-- C5 witness: the amended integrity facts at a concrete page and
dangling target. -/
theorem graph_integrity_amended_witness :
    validate_graph_integrity emptyGraphState
      = { orphaned_pages := 0, broken_relationships := 0,
          duplicate_pages := 0, is_valid := true } ∧
    validate_graph_integrity
        (create_relationships (upsert_page emptyGraphState "p1" "T")
          ⟨"p1", "T", none, [], [], ["deadbeef"], []⟩)
      = { orphaned_pages := 1, broken_relationships := 0,
          duplicate_pages := 0, is_valid := false } :=
  graph_integrity_amended "p1" "T" "deadbeef" (by decide)

/-- Soundness of the climb: a successful climb yields the titles of its
ids, every id is non-empty and indexed, consecutive ids are parent
links, and the chain runs from a root down to the start node. -/
theorem climbPath_sound (m : PagesMap) :
    ∀ (fuel : Nat) (cur : Option String) (ids titles : List String),
    climbPath m fuel cur = some (ids, titles) →
    titles = ids.map (fun pid => ((lookupPage m pid).map PageInfo.title).getD "") ∧
    (∀ pid ∈ ids, pid ≠ "" ∧ (lookupPage m pid).isSome) ∧
    List.Chain' (parentLink m) ids ∧
    (ids = [] → climbStops m cur) ∧
    (ids ≠ [] → ids.getLast? = cur ∧ ∀ hd, ids.head? = some hd → headStops m hd) := by
  intro fuel
  induction fuel with
  | zero =>
    intro cur ids titles h
    rcases cur with _ | cid
    · rw [climbPath] at h
      rcases h with ⟨rfl, rfl⟩
      exact ⟨rfl, by simp, List.chain'_nil, fun _ => trivial, fun hne => absurd rfl hne⟩
    · rw [climbPath] at h
      by_cases hcid : cid = ""
      · rw [if_pos hcid] at h
        rcases h with ⟨rfl, rfl⟩
        exact ⟨rfl, by simp, List.chain'_nil, fun _ => Or.inl hcid, fun hne => absurd rfl hne⟩
      · rw [if_neg hcid] at h
        by_cases hlk : (lookupPage m cid).isSome
        · rw [if_pos hlk] at h
          exact absurd h (by simp)
        · rw [if_neg hlk] at h
          rcases h with ⟨rfl, rfl⟩
          exact ⟨rfl, by simp, List.chain'_nil,
            fun _ => Or.inr (Option.not_isSome_iff_eq_none.mp hlk),
            fun hne => absurd rfl hne⟩
  | succ fuel ih =>
    intro cur ids titles h
    rcases cur with _ | cid
    · rw [climbPath] at h
      rcases h with ⟨rfl, rfl⟩
      exact ⟨rfl, by simp, List.chain'_nil, fun _ => trivial, fun hne => absurd rfl hne⟩
    · rw [climbPath] at h
      by_cases hcid : cid = ""
      · rw [if_pos hcid] at h
        rcases h with ⟨rfl, rfl⟩
        exact ⟨rfl, by simp, List.chain'_nil, fun _ => Or.inl hcid, fun hne => absurd rfl hne⟩
      · rw [if_neg hcid] at h
        split at h
        · next hlk =>
          rcases h with ⟨rfl, rfl⟩
          exact ⟨rfl, by simp, List.chain'_nil, fun _ => Or.inr hlk, fun hne => absurd rfl hne⟩
        · next pg hlk =>
          split at h
          · exact absurd h (by simp)
          · next ids0 titles0 hrec =>
            rcases h with ⟨rfl, rfl⟩
            obtain ⟨ht0, hmem0, hch0, hstop0, hlast0⟩ := ih pg.parent_id ids0 titles0 hrec
            refine ⟨?_, ?_, ?_, ?_, ?_⟩
            · rw [List.map_append, ← ht0]
              simp [hlk]
            · intro pid hpid
              rcases List.mem_append.mp hpid with hin | hin
              · exact hmem0 pid hin
              · rcases List.mem_singleton.mp hin with rfl
                exact ⟨hcid, by simp [hlk]⟩
            · by_cases hnil : ids0 = []
              · subst hnil
                simp
              · apply List.chain'_append.mpr
                refine ⟨hch0, List.chain'_singleton cid, ?_⟩
                intro x hx y hy
                simp at hy
                subst hy
                refine ⟨pg, hlk, ?_⟩
                have hlast := (hlast0 hnil).1
                rw [hlast] at hx
                exact hx
            · intro hcontra
              exact absurd hcontra (by simp)
            · intro _
              refine ⟨by simp, ?_⟩
              intro hd hhd
              by_cases hnil : ids0 = []
              · subst hnil
                simp at hhd
                subst hhd
                exact ⟨pg, hlk, hstop0 rfl⟩
              · obtain ⟨a, rest, rfl⟩ := List.exists_cons_of_ne_nil hnil
                simp at hhd
                subst hhd
                exact (hlast0 (by simp)).2 a (by simp)

/-- Every leaf listed by `leafNodes` is a key of the map. -/
theorem leafNodes_lookup (m : PagesMap) (leaf : String) (h : leaf ∈ leafNodes m) :
    (lookupPage m leaf).isSome := by
  unfold leafNodes at h
  rcases List.mem_map.mp h with ⟨q, hq, rfl⟩
  unfold lookupPage
  rw [Option.isSome_map']
  exact List.find?_isSome.mpr ⟨q, List.mem_of_mem_filter hq, by simp⟩

/-- Soundness of the per-leaf loop: on any list of indexed leaves it
produces exactly one entry per non-empty leaf id, in order, and every
entry satisfies `pathEntryOk`. -/
theorem buildPathsGo_sound (m : PagesMap) :
    ∀ (L : List String) (ps : List PathEntry),
    (∀ leaf ∈ L, (lookupPage m leaf).isSome) →
    buildPathsGo m L = some ps →
    ps.map PathEntry.leaf_id = L.filter (fun x => x ≠ "") ∧
    ∀ e ∈ ps, pathEntryOk m e := by
  intro L
  induction L with
  | nil =>
    intro ps _ h
    rw [buildPathsGo] at h
    injection h with h'
    subst h'
    simp
  | cons leaf rest ihr =>
    intro ps hmem h
    rw [buildPathsGo] at h
    split at h
    · next _ _ ids titles acc hc hr =>
      have hlk : (lookupPage m leaf).isSome := hmem leaf (List.mem_cons_self leaf rest)
      obtain ⟨hacc_map, hacc_ok⟩ :=
        ihr acc (fun l hl => hmem l (List.mem_cons_of_mem leaf hl)) hr
      obtain ⟨ht, hm, hch, hstop, hlast⟩ :=
        climbPath_sound m (m.length + 1) (some leaf) ids titles hc
      by_cases hlen : ids.length > 0
      · rw [if_pos hlen] at h
        injection h with h'
        subst h'
        have hne : ids ≠ [] := by
          intro hh
          rw [hh] at hlen
          exact absurd hlen (by simp)
        have hgl : ids.getLast? = some leaf := (hlast hne).1
        have hleaf_mem : leaf ∈ ids := by
          obtain ⟨hne2, heq⟩ := List.mem_getLast?_eq_getLast (show leaf ∈ ids.getLast? from hgl)
          rw [heq]
          exact List.getLast_mem hne2
        have hleaf_ne : ¬ (leaf = "") := (hm leaf hleaf_mem).1
        constructor
        · rw [List.map_cons, hacc_map,
            List.filter_cons_of_pos (by simpa using hleaf_ne)]
          rfl
        · intro e he
          rcases List.mem_cons.mp he with rfl | hin
          · exact ⟨hne, hgl, rfl, ht, rfl, rfl, hm, hch, fun hd hhd => (hlast hne).2 hd hhd⟩
          · exact hacc_ok e hin
      · rw [if_neg hlen] at h
        injection h with h'
        subst h'
        have hids : ids = [] := by
          rcases ids with _ | _
          · rfl
          · exact absurd (by simp) hlen
        have hleaf_empty : leaf = "" := by
          rcases hstop hids with hempty | hnone
          · exact hempty
          · rw [hnone] at hlk
            exact absurd hlk (by simp)
        constructor
        · rw [hacc_map, List.filter_cons_of_neg (by simpa using hleaf_empty)]
        · exact hacc_ok
    · exact absurd h (by simp)

/-- C4 (amended): whenever `_build_paths` terminates (which the fuelled
embedding certifies for acyclic maps), it produces exactly one entry
per leaf page with a non-empty id, in dict order; each entry's
`path_ids` is a root-to-leaf parent chain ending at the leaf, its
`path_titles` are the titles of that chain, `path_length` is
`len(path_ids) - 1`, and `path_string` joins the titles with " -> ". -/
theorem build_paths_spec (m : PagesMap) (ps : List PathEntry)
    (h : build_paths m = some ps) :
    ps.map PathEntry.leaf_id = (leafNodes m).filter (fun x => x ≠ "") ∧
    ps.length = ((leafNodes m).filter (fun x => x ≠ "")).length ∧
    ∀ e ∈ ps, pathEntryOk m e := by
  obtain ⟨h1, h2⟩ := buildPathsGo_sound m (leafNodes m) ps
    (fun leaf hl => leafNodes_lookup m leaf hl) h
  exact ⟨h1, by rw [← h1, List.length_map], h2⟩

/-- C4 counterexample: a pages map with the single leaf id `""` (empty
string) produces no path entry at all, because the climb loop guard
`while current_id and ...` is falsy on the empty id; so the claim that
every acyclic map yields exactly one entry per leaf fails for maps
with an empty-string key. -/
theorem build_paths_counterexample :
    leafNodes [("", ⟨"T", none, []⟩)] = [""] ∧
    build_paths [("", ⟨"T", none, []⟩)] = some [] := by
  exact ⟨rfl, rfl⟩

/-- C4 witness: the spec example, one root with two children and three
leaf grandchildren, yields exactly 3 paths of the claimed shape. -/
theorem build_paths_spec_witness :
    build_paths
        [("r", ⟨"Root", none, ["a", "b"]⟩), ("a", ⟨"A", some "r", ["g1", "g2"]⟩),
         ("b", ⟨"B", some "r", ["g3"]⟩), ("g1", ⟨"G1", some "a", []⟩),
         ("g2", ⟨"G2", some "a", []⟩), ("g3", ⟨"G3", some "b", []⟩)]
      = some
        [⟨"Root -> A -> G1", ["Root", "A", "G1"], ["r", "a", "g1"], "g1", "G1", 2⟩,
         ⟨"Root -> A -> G2", ["Root", "A", "G2"], ["r", "a", "g2"], "g2", "G2", 2⟩,
         ⟨"Root -> B -> G3", ["Root", "B", "G3"], ["r", "b", "g3"], "g3", "G3", 2⟩] ∧
    ∀ e ∈
        [⟨"Root -> A -> G1", ["Root", "A", "G1"], ["r", "a", "g1"], "g1", "G1", 2⟩,
         ⟨"Root -> A -> G2", ["Root", "A", "G2"], ["r", "a", "g2"], "g2", "G2", 2⟩,
         (⟨"Root -> B -> G3", ["Root", "B", "G3"], ["r", "b", "g3"], "g3", "G3", 2⟩ : PathEntry)],
      pathEntryOk
        [("r", ⟨"Root", none, ["a", "b"]⟩), ("a", ⟨"A", some "r", ["g1", "g2"]⟩),
         ("b", ⟨"B", some "r", ["g3"]⟩), ("g1", ⟨"G1", some "a", []⟩),
         ("g2", ⟨"G2", some "a", []⟩), ("g3", ⟨"G3", some "b", []⟩)] e := by
  have hEq : build_paths
        [("r", ⟨"Root", none, ["a", "b"]⟩), ("a", ⟨"A", some "r", ["g1", "g2"]⟩),
         ("b", ⟨"B", some "r", ["g3"]⟩), ("g1", ⟨"G1", some "a", []⟩),
         ("g2", ⟨"G2", some "a", []⟩), ("g3", ⟨"G3", some "b", []⟩)]
      = some
        [⟨"Root -> A -> G1", ["Root", "A", "G1"], ["r", "a", "g1"], "g1", "G1", 2⟩,
         ⟨"Root -> A -> G2", ["Root", "A", "G2"], ["r", "a", "g2"], "g2", "G2", 2⟩,
         ⟨"Root -> B -> G3", ["Root", "B", "G3"], ["r", "b", "g3"], "g3", "G3", 2⟩] := by
    decide
  exact ⟨hEq, (build_paths_spec _ _ hEq).2.2⟩

/-- splitNl never returns an empty list of lines. -/
theorem splitNl_ne_nil (l : List Char) : splitNl l ≠ [] := by
  cases l with
  | nil => simp [splitNl]
  | cons c rest =>
    rw [splitNl]
    by_cases hc : c = '\n'
    · simp [hc]
    · rw [if_neg hc]
      cases h : splitNl rest <;> simp

/-- The total line cost of a split is the text length plus one. -/
theorem splitNl_lineSum (l : List Char) : lineSum (splitNl l) = l.length + 1 := by
  induction l with
  | nil => rfl
  | cons c rest ih =>
    rw [splitNl]
    by_cases hc : c = '\n'
    · rw [if_pos hc]
      simp [lineSum] at ih ⊢
      omega
    · rw [if_neg hc]
      cases h : splitNl rest with
      | nil => exact absurd h (splitNl_ne_nil rest)
      | cons l0 ls =>
        rw [h] at ih
        simp [lineSum] at ih ⊢
        omega

/-- Joining adds the lengths of the lines plus one newline between
consecutive lines. -/
theorem joinNl_length (ls : List (List Char)) (h : ls ≠ []) :
    (joinNl ls).length + 1 = lineSum ls := by
  induction ls with
  | nil => exact absurd rfl h
  | cons l rest ih =>
    cases rest with
    | nil => simp [joinNl, lineSum]
    | cons l2 rest2 =>
      rw [joinNl]
      have := ih (by simp)
      simp [lineSum] at this ⊢
      omega

/-- Joining undoes splitting. -/
theorem joinNl_splitNl (l : List Char) : joinNl (splitNl l) = l := by
  induction l with
  | nil => rfl
  | cons c rest ih =>
    rw [splitNl]
    by_cases hc : c = '\n'
    · rw [if_pos hc]
      cases h : splitNl rest with
      | nil => exact absurd h (splitNl_ne_nil rest)
      | cons l0 ls =>
        rw [h] at ih
        rw [joinNl, hc]
        simp [ih]
    · rw [if_neg hc]
      cases h : splitNl rest with
      | nil => exact absurd h (splitNl_ne_nil rest)
      | cons l0 ls =>
        rw [h] at ih
        cases ls with
        | nil =>
          rw [joinNl]
          rw [joinNl] at ih
          simp [ih]
        | cons l1 ls2 =>
          rw [joinNl]
          rw [joinNl] at ih
          simpa using ih

/-- Joining a longer line list extends the join of its head part. -/
theorem joinNl_append_ex (ks ts : List (List Char)) (h : ts ≠ []) :
    ∃ r, joinNl (ks ++ ts) = joinNl ks ++ r := by
  induction ks with
  | nil => exact ⟨joinNl ts, by simp [joinNl]⟩
  | cons k ks' ih =>
    cases ks' with
    | nil =>
      cases ts with
      | nil => exact absurd rfl h
      | cons t ts' => exact ⟨'\n' :: joinNl (t :: ts'), by simp [joinNl]⟩
    | cons k2 ks2 =>
      obtain ⟨r, hr⟩ := ih
      refine ⟨r, ?_⟩
      calc joinNl ((k :: k2 :: ks2) ++ ts)
          = k ++ '\n' :: joinNl ((k2 :: ks2) ++ ts) := rfl
        _ = k ++ '\n' :: (joinNl (k2 :: ks2) ++ r) := by rw [hr]
        _ = joinNl (k :: k2 :: ks2) ++ r := by simp [joinNl]

/-- The head loop's final `current_length` counts exactly the kept
lines on top of the start value. -/
theorem takeHeadLines_sum (ls : List (List Char)) :
    ∀ cur, (takeHeadLines ls cur).2 = cur + lineSum (takeHeadLines ls cur).1 := by
  induction ls with
  | nil => intro cur; simp [takeHeadLines, lineSum]
  | cons l rest ih =>
    intro cur
    rw [takeHeadLines]
    by_cases hc : cur + (l.length + 1) > 6400
    · rw [if_pos hc]
      simp [lineSum]
    · rw [if_neg hc]
      simp only []
      rw [ih (cur + (l.length + 1))]
      simp [lineSum]
      omega

/-- The head loop never pushes `current_length` past the 6400 budget. -/
theorem takeHeadLines_le (ls : List (List Char)) :
    ∀ cur, cur ≤ 6400 → (takeHeadLines ls cur).2 ≤ 6400 := by
  induction ls with
  | nil => intro cur h; simpa [takeHeadLines] using h
  | cons l rest ih =>
    intro cur h
    rw [takeHeadLines]
    by_cases hc : cur + (l.length + 1) > 6400
    · rw [if_pos hc]
      simpa using h
    · rw [if_neg hc]
      simp only []
      exact ih (cur + (l.length + 1)) (by omega)

/-- The kept lines are an initial segment of the input lines. -/
theorem takeHeadLines_ex_suffix (ls : List (List Char)) :
    ∀ cur, ∃ ts, ls = (takeHeadLines ls cur).1 ++ ts := by
  induction ls with
  | nil => intro cur; exact ⟨[], by simp [takeHeadLines]⟩
  | cons l rest ih =>
    intro cur
    rw [takeHeadLines]
    by_cases hc : cur + (l.length + 1) > 6400
    · rw [if_pos hc]
      exact ⟨l :: rest, by simp⟩
    · rw [if_neg hc]
      obtain ⟨ts, hts⟩ := ih (cur + (l.length + 1))
      exact ⟨ts, by simpa using hts⟩

/-- On an oversized input the head loop keeps a proper initial segment. -/
theorem takeHeadLines_proper (ls : List (List Char)) (cur : Nat)
    (hcur : cur ≤ 6400) (hbig : 6400 < cur + lineSum ls) :
    ∃ ts, ts ≠ [] ∧ ls = (takeHeadLines ls cur).1 ++ ts := by
  obtain ⟨ts, hts⟩ := takeHeadLines_ex_suffix ls cur
  refine ⟨ts, ?_, hts⟩
  intro hnil
  subst hnil
  rw [List.append_nil] at hts
  have h1 := takeHeadLines_sum ls cur
  have h2 := takeHeadLines_le ls cur hcur
  rw [← hts] at h1
  omega

/-- The tail loop keeps `end_length` within its budget. -/
theorem takeEndLines_le (rl : List (List Char)) :
    ∀ endLen budget, endLen ≤ budget → (takeEndLines rl endLen budget).2 ≤ budget := by
  induction rl with
  | nil => intro e b h; simpa [takeEndLines] using h
  | cons l rest ih =>
    intro e b h
    rw [takeEndLines]
    by_cases hc : e + (l.length + 1) > b
    · rw [if_pos hc]
      simpa using h
    · rw [if_neg hc]
      simp only []
      exact ih (e + (l.length + 1)) b (by omega)

/-- The tail loop's final `end_length` counts exactly the kept lines. -/
theorem takeEndLines_sum (rl : List (List Char)) :
    ∀ endLen budget,
      (takeEndLines rl endLen budget).2
        = endLen + lineSum (takeEndLines rl endLen budget).1 := by
  induction rl with
  | nil => intro e b; simp [takeEndLines, lineSum]
  | cons l rest ih =>
    intro e b
    rw [takeEndLines]
    by_cases hc : e + (l.length + 1) > b
    · rw [if_pos hc]
      simp [lineSum]
    · rw [if_neg hc]
      simp only []
      rw [ih (e + (l.length + 1)) b]
      simp [lineSum]
      omega

/-- Decimal rendering needs at most `k` digits below `10 ^ k`. -/
theorem natDecimal_len_le : ∀ (k n : Nat), n < 10 ^ k → 1 ≤ k →
    (natDecimal n).length ≤ k := by
  intro k
  induction k with
  | zero => intro n _ h; exact absurd h (by omega)
  | succ k ih =>
    intro n hn _
    by_cases hsmall : n < 10
    · rw [natDecimal, dif_pos hsmall]
      simp
    · rw [natDecimal, dif_neg hsmall]
      have hk : 1 ≤ k := by
        by_contra hk0
        have : k = 0 := by omega
        subst this
        simp at hn
        omega
      have hdiv : n / 10 < 10 ^ k := by
        rw [Nat.div_lt_iff_lt_mul (by omega)]
        calc n < 10 ^ (k + 1) := hn
          _ = 10 ^ k * 10 := by ring
      have := ih (n / 10) hdiv hk
      simp only [List.length_append, List.length_cons, List.length_nil]
      omega

/-- A positive number is at least the power of ten of one less than its
digit count. -/
theorem natDecimal_lower : ∀ n : Nat, 1 ≤ n →
    10 ^ ((natDecimal n).length - 1) ≤ n := by
  intro n
  induction n using Nat.strong_induction_on with
  | _ n ih =>
    intro hn
    by_cases hsmall : n < 10
    · rw [natDecimal, dif_pos hsmall]
      simpa using hn
    · rw [natDecimal, dif_neg hsmall]
      have hq : 1 ≤ n / 10 := by omega
      have hrec := ih (n / 10) (by omega) hq
      have hlen : 1 ≤ (natDecimal (n / 10)).length := by
        rw [natDecimal]
        split <;> simp
      simp only [List.length_append, List.length_cons, List.length_nil]
      have hstep : 10 ^ ((natDecimal (n / 10)).length + 1 - 1)
          = 10 * 10 ^ ((natDecimal (n / 10)).length - 1) := by
        rw [Nat.add_sub_cancel]
        conv_lhs => rw [← Nat.sub_add_cancel hlen]
        rw [pow_succ]
        ring
      rw [hstep]
      calc 10 * 10 ^ ((natDecimal (n / 10)).length - 1) ≤ 10 * (n / 10) :=
            Nat.mul_le_mul_left 10 hrec
        _ ≤ n := Nat.mul_div_le n 10

/-- For at least five digits, the digit count plus 7996 fits under the
corresponding power of ten. -/
theorem digits_slack : ∀ d : Nat, 5 ≤ d → d + 7996 ≤ 10 ^ (d - 1) := by
  intro d
  induction d with
  | zero => intro h; exact absurd h (by omega)
  | succ d ih =>
    intro h
    by_cases h5 : 5 ≤ d
    · have := ih h5
      have hpow : 10 ^ (d - 1) * 10 = 10 ^ (d + 1 - 1) := by
        rw [Nat.add_sub_cancel, ← pow_succ]
        congr 1
        omega
      calc d + 1 + 7996 ≤ 10 ^ (d - 1) + 1 := by omega
        _ ≤ 10 ^ (d - 1) * 10 := by
            have h1 : 1 ≤ 10 ^ (d - 1) := Nat.one_le_pow _ _ (by omega)
            omega
        _ = 10 ^ (d + 1 - 1) := hpow
    · have hd4 : d = 4 := by omega
      subst hd4
      norm_num

/-- The digit count of the original length fits in the room the
truncated text leaves: `d(b) + 7957 ≤ b` for `b ≥ 8001`. -/
theorem natDecimal_room (b : Nat) (hb : 8001 ≤ b) :
    (natDecimal b).length + 7957 ≤ b := by
  by_cases hd : (natDecimal b).length ≤ 44
  · omega
  · have hd5 : 5 ≤ (natDecimal b).length := by omega
    have hlow := natDecimal_lower b (by omega)
    have := digits_slack (natDecimal b).length hd5
    omega

/-- Line costs add over concatenation. -/
theorem lineSum_append (a b : List (List Char)) :
    lineSum (a ++ b) = lineSum a + lineSum b := by
  simp [lineSum]

/-- Length of the truncation note in terms of the two rendered
numbers. -/
theorem truncNote_length (a b : Nat) :
    (truncNote a b).length = 34 + (natDecimal a).length + (natDecimal b).length := by
  have h1 : ("\n\n[📄 内容已截断: 显示 ".data).length = 15 := rfl
  have h2 : (" 字符，如需完整内容请直接访问文件]".data).length = 18 := rfl
  simp only [truncNote, List.length_append, List.length_cons, h1, h2]
  omega

/-- C8: content within the 8000-character cap is returned unchanged;
longer content yields a strictly shorter result that ends with the
`shown X/Y characters` truncation note (X being the length of what
precedes the note, Y the original length), and the kept head of the
line list is simultaneously a leading portion of the original text and
of the result. -/
theorem process_content_length_spec (content : List Char) :
    (content.length ≤ 8000 → process_content_length content = content) ∧
    (8000 < content.length →
      (process_content_length content).length < content.length ∧
      (∃ pre : List Char, process_content_length content
          = pre ++ truncNote pre.length content.length) ∧
      (∃ t, content = joinNl (takeHeadLines (splitNl content) 0).1 ++ t) ∧
      (∃ t, process_content_length content
          = joinNl (takeHeadLines (splitNl content) 0).1 ++ t)) := by
  constructor
  · intro h
    unfold process_content_length
    rw [if_pos h]
  · intro hbig
    have hsum : lineSum (splitNl content) = content.length + 1 := splitNl_lineSum content
    have hcurle : (takeHeadLines (splitNl content) 0).2 ≤ 6400 :=
      takeHeadLines_le _ 0 (by omega)
    have hcursum : (takeHeadLines (splitNl content) 0).2
        = 0 + lineSum (takeHeadLines (splitNl content) 0).1 := takeHeadLines_sum _ 0
    obtain ⟨ts, htsne, hts⟩ :=
      takeHeadLines_proper (splitNl content) 0 (by omega) (by omega)
    obtain ⟨rc, hrc⟩ := joinNl_append_ex (takeHeadLines (splitNl content) 0).1 ts htsne
    have hcontent_pre : content = joinNl (takeHeadLines (splitNl content) 0).1 ++ rc := by
      conv_lhs => rw [← joinNl_splitNl content, hts]
      exact hrc
    have hda : ∀ a : Nat, a ≤ 7918 → (natDecimal a).length ≤ 4 :=
      fun a ha => natDecimal_len_le 4 a (by omega) (by omega)
    have hdb := natDecimal_room content.length (by omega)
    unfold process_content_length
    rw [if_neg (by omega)]
    simp only []
    by_cases hcond : 8000 - (takeHeadLines (splitNl content) 0).2 > 200 ∧
        (splitNl content).length > (takeHeadLines (splitNl content) 0).1.length + 10
    · rw [if_pos hcond]
      have hendle : (takeEndLines
          (((splitNl content).drop ((takeHeadLines (splitNl content) 0).1.length + 1)).reverse) 0
          (8000 - (takeHeadLines (splitNl content) 0).2 - 100)).2
          ≤ 8000 - (takeHeadLines (splitNl content) 0).2 - 100 :=
        takeEndLines_le _ 0 _ (by omega)
      have hendsum := takeEndLines_sum
        (((splitNl content).drop ((takeHeadLines (splitNl content) 0).1.length + 1)).reverse) 0
        (8000 - (takeHeadLines (splitNl content) 0).2 - 100)
      have hprocne : ((takeHeadLines (splitNl content) 0).1 ++ [omissionLine]) ++
          (takeEndLines
            (((splitNl content).drop ((takeHeadLines (splitNl content) 0).1.length + 1)).reverse) 0
            (8000 - (takeHeadLines (splitNl content) 0).2 - 100)).1 ≠ [] := by simp
      have hjlen := joinNl_length _ hprocne
      rw [lineSum_append, lineSum_append] at hjlen
      have homcost : lineSum [omissionLine] = 19 := by decide
      rw [homcost] at hjlen
      have hprelen : (joinNl (((takeHeadLines (splitNl content) 0).1 ++ [omissionLine]) ++
          (takeEndLines
            (((splitNl content).drop ((takeHeadLines (splitNl content) 0).1.length + 1)).reverse) 0
            (8000 - (takeHeadLines (splitNl content) 0).2 - 100)).1)).length ≤ 7918 := by
        omega
      rw [if_pos (by omega)]
      refine ⟨?_, ⟨_, rfl⟩, ⟨rc, hcontent_pre⟩, ?_⟩
      · rw [List.length_append, truncNote_length]
        have := hda _ hprelen
        omega
      · obtain ⟨rr, hrr⟩ := joinNl_append_ex (takeHeadLines (splitNl content) 0).1
          ([omissionLine] ++ (takeEndLines
            (((splitNl content).drop ((takeHeadLines (splitNl content) 0).1.length + 1)).reverse) 0
            (8000 - (takeHeadLines (splitNl content) 0).2 - 100)).1) (by simp)
        rw [← List.append_assoc] at hrr
        rw [hrr, List.append_assoc]
        exact ⟨_, rfl⟩
    · rw [if_neg hcond]
      have hprelen : (joinNl (takeHeadLines (splitNl content) 0).1).length ≤ 6400 := by
        by_cases hk0 : (takeHeadLines (splitNl content) 0).1 = []
        · rw [hk0]
          simp [joinNl]
        · have := joinNl_length _ hk0
          omega
      rw [if_pos (by omega)]
      refine ⟨?_, ⟨_, rfl⟩, ⟨rc, hcontent_pre⟩, ⟨_, rfl⟩⟩
      rw [List.length_append, truncNote_length]
      have := hda _ (by omega : (joinNl (takeHeadLines (splitNl content) 0).1).length ≤ 7918)
      omega

/-- C8 witness: a 9001-character content (9000 letters and a newline in
the middle) is strictly truncated with the note appended, while content
at the cap is returned unchanged. -/
theorem process_content_length_spec_witness :
    process_content_length (List.replicate 8000 'a')
      = List.replicate 8000 'a' ∧
    ((process_content_length (List.replicate 9001 'b')).length
        < (List.replicate 9001 'b').length ∧
      ∃ pre : List Char, process_content_length (List.replicate 9001 'b')
          = pre ++ truncNote pre.length (List.replicate 9001 'b').length) := by
  constructor
  · exact (process_content_length_spec (List.replicate 8000 'a')).1
      (le_of_eq (List.length_replicate 8000 'a'))
  · have h := (process_content_length_spec (List.replicate 9001 'b')).2
      (lt_of_lt_of_eq (by norm_num) (List.length_replicate 9001 'b').symm)
    exact ⟨h.1, h.2.1⟩
